import Mathlib

/-!
Verification development for `ninecopy`, a multithreaded directory copy
utility (Rust sources `src/main.rs`, `src/stats.rs`, `src/errors.rs`,
`src/args.rs`).  The development shallowly embeds:

* the statistics record `Accumulator` (`stats.rs`);
* the fatal error taxonomy `CopyError` (`errors.rs`);
* the early validation sequence of `main` (`main.rs`, lines 26-37);
* the per-item copy policy of `copy_thread` (`main.rs`, lines 215-259)
  over a model filesystem;
* the error-classification match around `std::fs::copy`
  (`main.rs`, lines 243-255);
* the scan phase (`search_dir` + `search`, `main.rs`, lines 88-198) as a
  small-step transition system over coordinator/worker states;
* the copy-phase dispatch loop (`copy_queue`, `main.rs`, lines 286-380,
  with `copy_thread` as the workers) as a small-step transition system.

Machine integers (`u64`, `usize`) are modelled as `Nat`: every arithmetic
operation performed on them by the program is an increment or an addition
of file/byte counts, and Rust aborts (debug) on overflow rather than
producing a wrapped value, so `Nat` addition is the faithful total model
of the executions the claims quantify over.

Concurrency is modelled with one atomic step per blocking-point
transition: a scan worker's handling of one dispatched directory (one
iteration of `for path in rx` in `search`, which enumerates the children
and ends with a `Done`) appends its messages to that worker's FIFO
outbox, and the coordinator consumes one message at a time from the head
of any worker's outbox.  This captures exactly the nondeterminism of the
real `mpsc` channel (global delivery order interleaves the per-sender
FIFO streams arbitrarily).  The coordinator's `path_senders[sender_idx]`
indexing can panic (index out of bounds); a panic in the coordinator
aborts the process, modelled by a `crashed` flag that blocks every
further step.
-/

set_option maxHeartbeats 1000000

namespace Ninecopy

/-- The statistics record of `stats.rs`: six `u64` counters, never
decremented by the program. -/
structure Accumulator where
  file_count_found : Nat := 0
  byte_count_found : Nat := 0
  file_count_copied : Nat := 0
  byte_count_copied : Nat := 0
  file_count_skipped : Nat := 0
  byte_count_skipped : Nat := 0
deriving DecidableEq

/-- `Accumulator::found(files, bytes)` (`stats.rs`, lines 14-21). -/
def Accumulator.found (files bytes : Nat) : Accumulator :=
  { file_count_found := files, byte_count_found := bytes }

/-- `Accumulator::copies(files, bytes)` (`stats.rs`, lines 23-30). -/
def Accumulator.copies (files bytes : Nat) : Accumulator :=
  { file_count_copied := files, byte_count_copied := bytes }

/-- `Accumulator::skips(files, bytes)` (`stats.rs`, lines 32-34). -/
def Accumulator.skips (files bytes : Nat) : Accumulator :=
  { file_count_skipped := files, byte_count_skipped := bytes }

/-- `impl Add for Accumulator` (`stats.rs`, lines 37-50); `add_assign`
(lines 52-62) performs the same field-wise additions in place. -/
def Accumulator.add (a b : Accumulator) : Accumulator :=
  { file_count_found := a.file_count_found + b.file_count_found
    byte_count_found := a.byte_count_found + b.byte_count_found
    file_count_copied := a.file_count_copied + b.file_count_copied
    byte_count_copied := a.byte_count_copied + b.byte_count_copied
    file_count_skipped := a.file_count_skipped + b.file_count_skipped
    byte_count_skipped := a.byte_count_skipped + b.byte_count_skipped }

instance : Add Accumulator := ⟨Accumulator.add⟩

/-- The fatal error taxonomy of `errors.rs` (lines 3-10).  Filesystem
paths are modelled as lists of components. -/
inductive CopyError where
  | NotFaster
  | SourceNotFound (path : List String)
  | CannotOverwrite (path : List String)
  | DirectoryCreationFailed (msg : String)
  | AccessDenied (src dst : List String)
  | Other (msg : String)
deriving DecidableEq

/-- The `std::io::ErrorKind` values relevant to the copy loop's error
classification. -/
inductive IoErrorKind where
  | NotFound
  | PermissionDenied
  | AlreadyExists
  | TimedOut
  | Interrupted
  | UnexpectedEof
deriving DecidableEq

/-- `ErrorKind::to_string()` — the kind's fixed textual description used
by Rust's `Display` implementation for `std::io::ErrorKind`. -/
def IoErrorKind.toText : IoErrorKind → String
  | .NotFound => "entity not found"
  | .PermissionDenied => "permission denied"
  | .AlreadyExists => "entity already exists"
  | .TimedOut => "timed out"
  | .Interrupted => "operation interrupted"
  | .UnexpectedEof => "unexpected end of file"

/-- A `std::io::Error`: a kind plus the full error text its own
`to_string()` would produce (for OS errors this includes OS details the
kind description lacks, e.g. "No such file or directory (os error 2)"). -/
structure IoError where
  kind : IoErrorKind
  message : String
deriving DecidableEq

/-- The error-classification match around `std::fs::copy` in
`copy_thread` (`main.rs`, lines 243-255): a `PermissionDenied` failure
becomes `AccessDenied((src, dst))`; any other failure becomes
`Other(err.kind().to_string())`. -/
def classifyCopyFailure (src dst : List String) (e : IoError) : CopyError :=
  if e.kind = IoErrorKind.PermissionDenied then
    CopyError.AccessDenied src dst
  else
    CopyError.Other e.kind.toText

/-- The outcome of `main`'s validation sequence (`main.rs`, lines 26-37):
either an early return with a `CopyError` — before any scan or copy
thread is spawned and before the destination is touched — or fall-through
into the scan/copy pipeline. -/
inductive MainOutcome where
  | earlyError (e : CopyError)
  | pipeline
deriving DecidableEq

/-- The validation sequence at the top of `main` (`main.rs`, lines
26-37), in source order: missing source, non-directory source, then the
`skip`/`overwrite` mutual-exclusivity check. -/
def mainValidate (src : List String) (srcExists srcIsDir skip overwrite : Bool) :
    MainOutcome :=
  if srcExists = false then MainOutcome.earlyError (CopyError.SourceNotFound src)
  else if srcIsDir = false then MainOutcome.earlyError CopyError.NotFaster
  else if skip && overwrite then
    MainOutcome.earlyError (CopyError.Other "Cannot have both skip and overwrite set.")
  else MainOutcome.pipeline

/-- Model filesystem for the per-item copy policy: a finite map from file
paths to abstract contents (a `Nat` stands for the byte string) plus a set
of directory paths.  `DirBuilder::new().recursive(true)` also creates
missing ancestors; the model records only the directory handed to it,
which is all the claims inspect. -/
structure Fs where
  files : List (List String × Nat)
  dirs : List (List String)
deriving DecidableEq

/-- Content of the file at `p`, if a file exists there. -/
def Fs.fileContent (fs : Fs) (p : List String) : Option Nat :=
  (fs.files.find? (fun e => e.1 == p)).map (fun e => e.2)

/-- `Path::exists()`: true when a file or a directory is at `p`. -/
def Fs.pathExists (fs : Fs) (p : List String) : Bool :=
  (fs.fileContent p).isSome || fs.dirs.contains p

/-- Write content `c` at path `p` (the effect of a successful
`std::fs::copy` on the destination). -/
def Fs.setFile (fs : Fs) (p : List String) (c : Nat) : Fs :=
  { fs with files := (p, c) :: fs.files }

/-- `DirBuilder::new().recursive(true).create(p)`. -/
def Fs.mkdirAll (fs : Fs) (p : List String) : Fs :=
  { fs with dirs := p :: fs.dirs }

/-- The `overwrite` and `skip` mode flags consumed by the copy phase
(`args.rs`). -/
structure CopyFlags where
  skip : Bool
  overwrite : Bool
deriving DecidableEq

/-- A `File(ResultInfo)` work item: the source path and the
`metadata.len()` size snapshot captured at scan time. -/
structure FileItem where
  path : List String
  size : Nat
deriving DecidableEq

/-- Destination path computation in `copy_thread` (`main.rs`, lines
217-218): strip the copy base from the item's path and re-root the
relative suffix under the destination base.  Scan items' paths always
extend the copy base (they were discovered under it), so
`strip_prefix(copy_base)` is dropping the first `copy_base.length`
components. -/
def destPathOf (copyBase destBase : List String) (p : List String) : List String :=
  destBase ++ p.drop copyBase.length

/-- Tail of the `File` arm of `copy_thread` (`main.rs`, lines 234-259):
if the item was marked skipped, report a skip delta and leave the
filesystem untouched; otherwise create the destination's parent directory
when missing and copy the source file to the destination.  In-model
directory creation cannot fail, so the `DirectoryCreationFailed` arm has
no in-model trigger; in-model `fs::copy` fails only when the source path
is not a regular file (a branch outside every claim, whose real payload
is platform-dependent). -/
def copyOrSkip (fs : Fs) (item : FileItem) (newPath : List String) (skipped : Bool) :
    Except CopyError (Fs × Accumulator) :=
  if skipped then
    Except.ok (fs, Accumulator.skips 1 item.size)
  else
    let parent := newPath.dropLast
    let fs1 := if fs.pathExists parent then fs else fs.mkdirAll parent
    match fs1.fileContent item.path with
    | some c => Except.ok (fs1.setFile newPath c, Accumulator.copies 1 item.size)
    | none => Except.error (CopyError.Other "source is not a regular file")

/-- The `File` arm of `copy_thread` (`main.rs`, lines 215-259):
mark the item skipped when the source no longer exists; if the
destination exists, fail with `CannotOverwrite` unless `skip` or
`overwrite` is set, and mark the item skipped when `skip` is set; then
either skip or copy. -/
def processFile (flags : CopyFlags) (copyBase destBase : List String)
    (fs : Fs) (item : FileItem) : Except CopyError (Fs × Accumulator) :=
  let newPath := destPathOf copyBase destBase item.path
  let skipped0 := !fs.pathExists item.path
  if fs.pathExists newPath then
    if !flags.skip && !flags.overwrite then
      Except.error (CopyError.CannotOverwrite newPath)
    else
      copyOrSkip fs item newPath (skipped0 || flags.skip)
  else
    copyOrSkip fs item newPath skipped0

/-- Sum of `f` over a list. -/
def sumBy {α : Type _} (f : α → Nat) : List α → Nat
  | [] => 0
  | x :: xs => f x + sumBy f xs

/-- Apply `g` to the element at position `i`, leaving the list unchanged
when `i` is out of range. -/
def updateAt {α : Type _} : List α → Nat → (α → α) → List α
  | [], _, _ => []
  | x :: xs, 0, g => g x :: xs
  | x :: xs, n + 1, g => x :: updateAt xs n g

/-- Index, head and tail of the first nonempty inner list, if any (the
deterministic scheduler uses it to pick a worker or a message). -/
def popFirst {α : Type _} : List (List α) → Option (Nat × α × List α)
  | [] => none
  | [] :: rest => (popFirst rest).map (fun r => (r.1 + 1, r.2.1, r.2.2))
  | (x :: xs) :: _ => some (0, x, xs)

/-- A directory listing of a finite acyclic directory tree — the static
filesystem snapshot the scan phase enumerates (claims assume the tree is
unchanged during the scan).  A `Forest` is the sequence of entries
`read_dir` yields, in order: each entry is a name together with either a
file of some size or a subdirectory with its own listing. -/
inductive Forest where
  | empty
  | fileEntry (name : String) (size : Nat) (rest : Forest)
  | dirEntry (name : String) (children : Forest) (rest : Forest)
deriving DecidableEq

/-- Number of files in a listing's whole subtree. -/
def filesInForest : Forest → Nat
  | Forest.empty => 0
  | Forest.fileEntry _ _ rest => 1 + filesInForest rest
  | Forest.dirEntry _ children rest => filesInForest children + filesInForest rest

/-- Number of directories in a listing's whole subtree (the listed
directories themselves included). -/
def dirsInForest : Forest → Nat
  | Forest.empty => 0
  | Forest.fileEntry _ _ rest => dirsInForest rest
  | Forest.dirEntry _ children rest => 1 + dirsInForest children + dirsInForest rest

/-- Total size of the files in a listing's whole subtree. -/
def bytesInForest : Forest → Nat
  | Forest.empty => 0
  | Forest.fileEntry _ sz rest => sz + bytesInForest rest
  | Forest.dirEntry _ children rest => bytesInForest children + bytesInForest rest

/-- `enum SearchResult` of `main.rs` (lines 82-86).  A `Directory`
message additionally carries the (static) listing of the directory it
names: in the program a worker obtains that listing from the filesystem
when the path is later dispatched to it; with the snapshot assumption the
listing is a function of the path, carried here for a self-contained
state. -/
inductive SearchResult where
  | File (path : List String) (size : Nat)
  | Directory (path : List String) (children : Forest)
  | Done
deriving DecidableEq

/-- A directory dispatched to a scan worker's inbound path channel: its
path and its (static) listing. -/
structure ScanTask where
  path : List String
  entries : Forest
deriving DecidableEq

/-- Global state of the scan phase (`search_dir`, `main.rs`, lines
88-178): per-worker inbound path queues, per-worker FIFO streams of
not-yet-received `SearchResult` messages, and the coordinator's local
variables (`pending`, `sender_idx`, `queue`, the accumulator).  `crashed`
records a coordinator panic (out-of-bounds `path_senders[sender_idx]`). -/
structure ScanState where
  inboxes : List (List ScanTask)
  outboxes : List (List SearchResult)
  pending : Nat
  senderIdx : Nat
  queue : List SearchResult
  acc : Accumulator
  crashed : Bool
deriving DecidableEq

/-- 1 for a `File` queue item. -/
def qFiles : SearchResult → Nat
  | SearchResult.File _ _ => 1
  | _ => 0

/-- 1 for a `Directory` queue item. -/
def qDirs : SearchResult → Nat
  | SearchResult.Directory _ _ => 1
  | _ => 0

/-- The size of a `File` queue item. -/
def qBytes : SearchResult → Nat
  | SearchResult.File _ sz => sz
  | _ => 0

/-- Files still to be enumerated from a dispatched directory. -/
def taskFiles (t : ScanTask) : Nat := filesInForest t.entries

/-- Directories still to be discovered from a dispatched directory. -/
def taskDirs (t : ScanTask) : Nat := dirsInForest t.entries

/-- Bytes still to be enumerated from a dispatched directory. -/
def taskBytes (t : ScanTask) : Nat := bytesInForest t.entries

/-- Files represented by an in-flight message (a `Directory` message
stands for its whole subtree). -/
def msgFiles : SearchResult → Nat
  | SearchResult.File _ _ => 1
  | SearchResult.Directory _ es => filesInForest es
  | SearchResult.Done => 0

/-- Directories represented by an in-flight message (a `Directory`
message stands for itself plus its subtree). -/
def msgDirs : SearchResult → Nat
  | SearchResult.File _ _ => 0
  | SearchResult.Directory _ es => 1 + dirsInForest es
  | SearchResult.Done => 0

/-- Bytes represented by an in-flight message. -/
def msgBytes : SearchResult → Nat
  | SearchResult.File _ sz => sz
  | SearchResult.Directory _ es => bytesInForest es
  | SearchResult.Done => 0

/-- 1 for a `Done` message. -/
def msgDone : SearchResult → Nat
  | SearchResult.Done => 1
  | _ => 0

/-- The messages a scan worker emits for the children of one dispatched
directory, in `read_dir` order (`search`, `main.rs`, lines 182-194): a
`Directory` message for each child directory, a `File` message for every
other child. -/
def childMsgs (base : List String) : Forest → List SearchResult
  | Forest.empty => []
  | Forest.fileEntry n sz rest => SearchResult.File (base ++ [n]) sz :: childMsgs base rest
  | Forest.dirEntry n children rest =>
      SearchResult.Directory (base ++ [n]) children :: childMsgs base rest

/-- Everything a scan worker emits for one dispatched directory: its
children's messages followed by one `Done` (`search`, `main.rs`, lines
182-196). -/
def burst (t : ScanTask) : List SearchResult :=
  childMsgs t.path t.entries ++ [SearchResult.Done]

/-- The coordinator's handling of one received message (`search_dir`,
`main.rs`, lines 124-143): a `File` merges `found(1, len)` and is
appended to the queue; a `Directory` increments `pending`, is dispatched
to worker `sender_idx` (panic — `crashed` — if `sender_idx` is out of
bounds), advances `sender_idx` with wrap-around, and is appended to the
queue; a `Done` decrements `pending`.  No found-statistics are merged for
a `Directory`. -/
def handleMsg (s : ScanState) : SearchResult → ScanState
  | SearchResult.File p sz =>
      { s with acc := s.acc + Accumulator.found 1 sz
               queue := s.queue ++ [SearchResult.File p sz] }
  | SearchResult.Directory p es =>
      if s.senderIdx < s.inboxes.length then
        { s with pending := s.pending + 1
                 inboxes := updateAt s.inboxes s.senderIdx
                   (fun q => q ++ [ScanTask.mk p es])
                 senderIdx := if s.senderIdx + 1 = s.inboxes.length then 0
                   else s.senderIdx + 1
                 queue := s.queue ++ [SearchResult.Directory p es] }
      else
        { s with pending := s.pending + 1, crashed := true }
  | SearchResult.Done => { s with pending := s.pending - 1 }

/-- Worker `i` processes the directory at the head of its inbox,
appending the resulting messages to its outbox. -/
def workerStepState (s : ScanState) (i : Nat) (rest : List ScanTask) (t : ScanTask) :
    ScanState :=
  { s with inboxes := updateAt s.inboxes i (fun _ => rest)
           outboxes := updateAt s.outboxes i (fun o => o ++ burst t) }

/-- The coordinator receives the message at the head of worker `i`'s
outbox and handles it. -/
def deliverState (s : ScanState) (i : Nat) (m : SearchResult)
    (rest : List SearchResult) : ScanState :=
  handleMsg { s with outboxes := updateAt s.outboxes i (fun _ => rest) } m

/-- One step of the scan phase: either a worker processes one dispatched
directory, or the coordinator (which keeps reading while `pending > 0`)
receives the next message from some worker's FIFO stream.  A crashed
(panicked) coordinator takes no further steps. -/
inductive ScanStep : ScanState → ScanState → Prop where
  | worker (s : ScanState) (i : Nat) (t : ScanTask) (rest : List ScanTask) :
      s.crashed = false →
      s.inboxes[i]? = some (t :: rest) →
      ScanStep s (workerStepState s i rest t)
  | deliver (s : ScanState) (i : Nat) (m : SearchResult) (rest : List SearchResult) :
      s.crashed = false →
      0 < s.pending →
      s.outboxes[i]? = some (m :: rest) →
      ScanStep s (deliverState s i m rest)

/-- Reachability in the scan transition system. -/
def ScanReach : ScanState → ScanState → Prop := Relation.ReflTransGen ScanStep

/-- A deterministic scheduler: deliver the first available message while
the coordinator is reading, otherwise run the first worker that has work.
Used to compute concrete executions; every move it makes is a
`ScanStep`. -/
def scanNext (s : ScanState) : ScanState :=
  if s.crashed = true then s
  else if 0 < s.pending then
    match popFirst s.outboxes with
    | some (i, m, rest) => deliverState s i m rest
    | none =>
        match popFirst s.inboxes with
        | some (j, t, trest) => workerStepState s j trest t
        | none => s
  else
    match popFirst s.inboxes with
    | some (j, t, trest) => workerStepState s j trest t
    | none => s

/-- Iterate the deterministic scheduler. -/
def scanRun : Nat → ScanState → ScanState
  | 0, s => s
  | n + 1, s => scanRun n (scanNext s)

/-- The scan phase's initial state (`search_dir`, `main.rs`, lines
113-122): the root is seeded to worker 0's path channel, `pending = 1`,
`sender_idx = 1`, empty queue, zero statistics. -/
def initScan (rootEntries : Forest) (N : Nat) : ScanState :=
  { inboxes := updateAt (List.replicate N []) 0
      (fun q => q ++ [ScanTask.mk [] rootEntries])
    outboxes := List.replicate N []
    pending := 1
    senderIdx := 1
    queue := []
    acc := {}
    crashed := false }

/-- Invariant of the scan phase for `N` threads over a tree with `F`
files, `D` subdirectories and `B` total bytes: channel-vector lengths;
the accumulator mirrors the queue's `File` items; a crash implies the
coordinator was still owed messages; and, while not crashed —
conservation of files, directories and bytes across inboxes, in-flight
messages and the queue; the pending counter counts undrained directory
listings; every nonempty outbox still ends with its last `Done`; and (for
`N ≥ 2`) `sender_idx` tracks the number of directories dispatched so far,
staying in bounds. -/
def ScanInv (N F D B : Nat) (s : ScanState) : Prop :=
  s.inboxes.length = N ∧
  s.outboxes.length = N ∧
  s.acc = Accumulator.found (sumBy qFiles s.queue) (sumBy qBytes s.queue) ∧
  sumBy msgDone s.queue = 0 ∧
  (s.crashed = true → 1 ≤ s.pending) ∧
  (2 ≤ N → s.crashed = false) ∧
  (s.crashed = false →
    (sumBy (fun ib => sumBy taskFiles ib) s.inboxes +
       sumBy (fun ob => sumBy msgFiles ob) s.outboxes +
       sumBy qFiles s.queue = F) ∧
    (sumBy (fun ib => sumBy taskDirs ib) s.inboxes +
       sumBy (fun ob => sumBy msgDirs ob) s.outboxes +
       sumBy qDirs s.queue = D) ∧
    (sumBy (fun ib => sumBy taskBytes ib) s.inboxes +
       sumBy (fun ob => sumBy msgBytes ob) s.outboxes +
       sumBy qBytes s.queue = B) ∧
    s.pending = sumBy List.length s.inboxes +
      sumBy (fun ob => sumBy msgDone ob) s.outboxes ∧
    (∀ o ∈ s.outboxes, o ≠ [] → o.getLast? = some SearchResult.Done) ∧
    (2 ≤ N → s.senderIdx = (1 + sumBy qDirs s.queue) % N ∧ s.senderIdx < N))

/-- A copy-phase worker as the coordinator can observe it: a
`ThreadReady(id, delta)` message of its is in flight, or it is processing
a dispatched item, or it has been counted idle (after which the
coordinator never sends to it again and it blocks on its empty
channel). -/
inductive WorkStatus where
  | inflight (delta : Accumulator)
  | busy (item : SearchResult)
  | idleDone

/-- Global state of the copy-phase dispatch loop (`copy_queue`,
`main.rs`, lines 286-356): the remaining work queue, the workers, the
coordinator's `idle` counter and running accumulator. -/
structure CopyState where
  queue : List SearchResult
  workers : List WorkStatus
  idle : Nat
  acc : Accumulator

/-- 1 for a worker that has been counted idle. -/
def idleWeight : WorkStatus → Nat
  | WorkStatus.idleDone => 1
  | _ => 0

/-- Number of workers counted idle. -/
def countIdle (ws : List WorkStatus) : Nat := sumBy idleWeight ws

/-- One step of the copy-phase dispatch loop, parametrized by the pure
outcome `exec item` a worker reports for an item (the claim assumes the
absence of fatal errors, so every item yields an accumulator delta).
The coordinator (which keeps reading while `idle` is below the thread
count) receives a ready message and either dispatches the queue's front
item to that worker or counts it idle (`main.rs`, lines 330-338); a busy
worker finishes its item and reports ready again (`copy_thread`,
`main.rs`, lines 210-276). -/
inductive CopyStep (exec : SearchResult → Accumulator) :
    CopyState → CopyState → Prop where
  | deliverItem (s : CopyState) (i : Nat) (d : Accumulator) (p : SearchResult)
      (rest : List SearchResult) :
      s.idle < s.workers.length →
      s.workers[i]? = some (WorkStatus.inflight d) →
      s.queue = p :: rest →
      CopyStep exec s
        { queue := rest
          workers := updateAt s.workers i (fun _ => WorkStatus.busy p)
          idle := s.idle
          acc := s.acc + d }
  | deliverIdle (s : CopyState) (i : Nat) (d : Accumulator) :
      s.idle < s.workers.length →
      s.workers[i]? = some (WorkStatus.inflight d) →
      s.queue = [] →
      CopyStep exec s
        { queue := []
          workers := updateAt s.workers i (fun _ => WorkStatus.idleDone)
          idle := s.idle + 1
          acc := s.acc + d }
  | process (s : CopyState) (i : Nat) (p : SearchResult) :
      s.workers[i]? = some (WorkStatus.busy p) →
      CopyStep exec s
        { s with workers := updateAt s.workers i (fun _ => WorkStatus.inflight (exec p)) }

/-- The copy phase's initial state (`copy_queue`, `main.rs`, lines
293-327): the materialized queue, `N` workers each of which has sent its
startup `ThreadReady(id, default)` message, `idle = 0`. -/
def initCopy (q : List SearchResult) (N : Nat) : CopyState :=
  { queue := q
    workers := List.replicate N (WorkStatus.inflight {})
    idle := 0
    acc := {} }

/-- Per-worker weight for the copy-phase termination measure. -/
def workerWeight : WorkStatus → Nat
  | WorkStatus.inflight _ => 1
  | WorkStatus.busy _ => 2
  | WorkStatus.idleDone => 0

/-- Termination measure for the copy phase: strictly decreases on every
step. -/
def copyMeasure (s : CopyState) : Nat :=
  3 * s.queue.length + sumBy workerWeight s.workers

/-- Invariant of the copy phase for `N` threads: the worker vector has
length `N` and the `idle` counter equals the number of idle workers. -/
def CopyInv (N : Nat) (s : CopyState) : Prop :=
  s.workers.length = N ∧ s.idle = countIdle s.workers

/- ------------------------------------------------------------------ -/
/- Theorems.                                                           -/
/- ------------------------------------------------------------------ -/

theorem Accumulator.add_def (a b : Accumulator) : a + b = Accumulator.add a b := rfl

theorem Accumulator.add_comm (a b : Accumulator) : a + b = b + a := by
  cases a; cases b
  simp only [Accumulator.add_def, Accumulator.add, Accumulator.mk.injEq]
  omega

theorem Accumulator.add_assoc (a b c : Accumulator) : a + b + c = a + (b + c) := by
  cases a; cases b; cases c
  simp only [Accumulator.add_def, Accumulator.add, Accumulator.mk.injEq]
  omega

/-- Claim C7: Accumulator merge (field-wise addition, `stats.rs` lines
37-62) is commutative and associative — so per-worker deltas combined in
any order yield the same six totals — and merging never decreases any of
the six counters. -/
theorem accumulator_merge_comm_assoc_monotone (a b c : Accumulator) :
    a + b = b + a ∧ (a + b) + c = a + (b + c) ∧
    (a.file_count_found ≤ (a + b).file_count_found ∧
     a.byte_count_found ≤ (a + b).byte_count_found ∧
     a.file_count_copied ≤ (a + b).file_count_copied ∧
     a.byte_count_copied ≤ (a + b).byte_count_copied ∧
     a.file_count_skipped ≤ (a + b).file_count_skipped ∧
     a.byte_count_skipped ≤ (a + b).byte_count_skipped) := by
  refine ⟨Accumulator.add_comm a b, Accumulator.add_assoc a b c, ?_⟩
  cases a; cases b
  simp only [Accumulator.add_def, Accumulator.add]
  omega

/-- Claim C8 (counterexample): a copy failure whose underlying error text
is "No such file or directory (os error 2)" is reported as
`Other "entity not found"` — the kind's description — not as `Other`
carrying the verbatim error text, refuting the claim as stated. -/
theorem classify_copy_failure_not_verbatim :
    classifyCopyFailure ["src", "a.txt"] ["dst", "a.txt"]
        ⟨IoErrorKind.NotFound, "No such file or directory (os error 2)"⟩ =
      CopyError.Other "entity not found" ∧
    CopyError.Other "entity not found" ≠
      CopyError.Other "No such file or directory (os error 2)" := by
  constructor
  · rfl
  · decide

/-- Claim C8 (amended): every file-copy failure that is not a permission
failure is reported as the fatal error `Other`, carrying the textual
description of the underlying error's kind (`err.kind().to_string()`),
not the full verbatim error text. -/
theorem classify_copy_failure_other (src dst : List String) (e : IoError)
    (h : e.kind ≠ IoErrorKind.PermissionDenied) :
    classifyCopyFailure src dst e = CopyError.Other e.kind.toText := by
  simp [classifyCopyFailure, h]

/-- Witness for `classify_copy_failure_other` at a concrete non-permission
failure. -/
theorem classify_copy_failure_other_witness :
    (IoErrorKind.TimedOut ≠ IoErrorKind.PermissionDenied) ∧
    classifyCopyFailure ["s"] ["d"] ⟨IoErrorKind.TimedOut, "timed out (os error 110)"⟩ =
      CopyError.Other (IoErrorKind.toText IoErrorKind.TimedOut) :=
  ⟨by decide, classify_copy_failure_other ["s"] ["d"]
    ⟨IoErrorKind.TimedOut, "timed out (os error 110)"⟩ (by decide)⟩

/-- Claim C10: with an existing directory source, if both `skip` and
`overwrite` are set, `main` returns
`Other("Cannot have both skip and overwrite set.")` during validation —
an early error, not the pipeline branch, so no scan or copy thread is
spawned and the destination is never touched. -/
theorem main_rejects_skip_and_overwrite (src : List String)
    (se sd : Bool) (hse : se = true) (hsd : sd = true) :
    mainValidate src se sd true true =
      MainOutcome.earlyError (CopyError.Other "Cannot have both skip and overwrite set.") ∧
    mainValidate src se sd true true ≠ MainOutcome.pipeline := by
  subst hse hsd
  constructor
  · rfl
  · intro h
    simp [mainValidate] at h

/-- Witness for `main_rejects_skip_and_overwrite` at a concrete source
path. -/
theorem main_rejects_skip_and_overwrite_witness :
    (true = true) ∧ (true = true) ∧
    (mainValidate ["src"] true true true true =
      MainOutcome.earlyError (CopyError.Other "Cannot have both skip and overwrite set.") ∧
     mainValidate ["src"] true true true true ≠ MainOutcome.pipeline) :=
  ⟨rfl, rfl, main_rejects_skip_and_overwrite ["src"] true true rfl rfl⟩

theorem Fs.fileContent_setFile_self (fs : Fs) (p : List String) (c : Nat) :
    (fs.setFile p c).fileContent p = some c := by
  simp [Fs.setFile, Fs.fileContent, List.find?]

theorem Fs.fileContent_mkdirAll (fs : Fs) (p q : List String) :
    (fs.mkdirAll q).fileContent p = fs.fileContent p := rfl

theorem Fs.pathExists_of_fileContent (fs : Fs) (p : List String) (c : Nat)
    (h : fs.fileContent p = some c) : fs.pathExists p = true := by
  simp [Fs.pathExists, h]

/-- Claim C3 (counterexample): with `overwrite` set and the destination
existing, a work item whose source has vanished is skipped — the
filesystem is left unchanged and the reported delta is a skip, not a
copy — refuting "the copy proceeds and the destination ends up with the
source's content" as stated for every item with an existing
destination. -/
theorem copy_overwrite_vanished_source_not_copied :
    processFile ⟨false, true⟩ ["src"] ["dst"]
        ⟨[(["dst", "a.txt"], 7)], []⟩ ⟨["src", "a.txt"], 5⟩ =
      Except.ok ((⟨[(["dst", "a.txt"], 7)], []⟩ : Fs), Accumulator.skips 1 5) ∧
    Accumulator.skips 1 5 ≠ Accumulator.copies 1 5 := by
  constructor
  · rfl
  · decide

/-- Claim C3 (amended): for every `File` work item whose destination path
already exists — if neither `skip` nor `overwrite` is set, the item fails
with `CannotOverwrite` naming that destination; if `skip` is set, no copy
is performed, the filesystem is untouched, and the item's count and size
are reported as skipped; if only `overwrite` is set **and the source file
still exists**, the copy proceeds and the destination ends up with the
source's content (a vanished source is skipped instead). -/
theorem copy_dest_exists_policy (flags : CopyFlags) (cb db : List String)
    (fs : Fs) (item : FileItem)
    (hdst : fs.pathExists (destPathOf cb db item.path) = true) :
    (flags.skip = false → flags.overwrite = false →
       processFile flags cb db fs item =
         Except.error (CopyError.CannotOverwrite (destPathOf cb db item.path))) ∧
    (flags.skip = true →
       processFile flags cb db fs item =
         Except.ok (fs, Accumulator.skips 1 item.size)) ∧
    (∀ c : Nat, flags.skip = false → flags.overwrite = true →
       fs.fileContent item.path = some c →
       ∃ fs' : Fs, processFile flags cb db fs item =
           Except.ok (fs', Accumulator.copies 1 item.size) ∧
         fs'.fileContent (destPathOf cb db item.path) = some c) := by
  refine ⟨?_, ?_, ?_⟩
  · intro hs ho
    simp [processFile, hdst, hs, ho]
  · intro hs
    simp [processFile, hdst, hs, copyOrSkip]
  · intro c hs ho hc
    have hsrc : fs.pathExists item.path = true :=
      Fs.pathExists_of_fileContent fs item.path c hc
    simp only [processFile, hdst, hs, ho, if_true, Bool.not_false, Bool.not_true,
      Bool.and_false, Bool.false_and, if_false, hsrc, Bool.or_false]
    by_cases hp : fs.pathExists ((destPathOf cb db item.path).dropLast) = true
    · refine ⟨(fs.setFile (destPathOf cb db item.path) c), ?_, ?_⟩
      · simp [copyOrSkip, hp, hc]
      · exact Fs.fileContent_setFile_self fs _ c
    · refine ⟨((fs.mkdirAll ((destPathOf cb db item.path).dropLast)).setFile
        (destPathOf cb db item.path) c), ?_, ?_⟩
      · simp only [Bool.not_eq_true] at hp
        simp [copyOrSkip, hp, Fs.fileContent_mkdirAll, hc]
      · exact Fs.fileContent_setFile_self _ _ c

/-- Witness for `copy_dest_exists_policy`: a concrete state in which both
the source file and the destination file exist. -/
theorem copy_dest_exists_policy_witness :
    (Fs.pathExists ⟨[(["src", "a.txt"], 5), (["dst", "a.txt"], 7)], []⟩
        (destPathOf ["src"] ["dst"] ["src", "a.txt"]) = true) ∧
    ((CopyFlags.mk false false).skip = false → (CopyFlags.mk false false).overwrite = false →
       processFile ⟨false, false⟩ ["src"] ["dst"]
           ⟨[(["src", "a.txt"], 5), (["dst", "a.txt"], 7)], []⟩ ⟨["src", "a.txt"], 5⟩ =
         Except.error (CopyError.CannotOverwrite
           (destPathOf ["src"] ["dst"] ["src", "a.txt"]))) ∧
    ((CopyFlags.mk false false).skip = true →
       processFile ⟨false, false⟩ ["src"] ["dst"]
           ⟨[(["src", "a.txt"], 5), (["dst", "a.txt"], 7)], []⟩ ⟨["src", "a.txt"], 5⟩ =
         Except.ok ((⟨[(["src", "a.txt"], 5), (["dst", "a.txt"], 7)], []⟩ : Fs),
           Accumulator.skips 1 5)) ∧
    (∀ c : Nat, (CopyFlags.mk false false).skip = false →
       (CopyFlags.mk false false).overwrite = true →
       Fs.fileContent ⟨[(["src", "a.txt"], 5), (["dst", "a.txt"], 7)], []⟩
           ["src", "a.txt"] = some c →
       ∃ fs' : Fs, processFile ⟨false, false⟩ ["src"] ["dst"]
             ⟨[(["src", "a.txt"], 5), (["dst", "a.txt"], 7)], []⟩ ⟨["src", "a.txt"], 5⟩ =
           Except.ok (fs', Accumulator.copies 1 5) ∧
         fs'.fileContent (destPathOf ["src"] ["dst"] ["src", "a.txt"]) = some c) :=
  ⟨by decide,
   (copy_dest_exists_policy ⟨false, false⟩ ["src"] ["dst"]
     ⟨[(["src", "a.txt"], 5), (["dst", "a.txt"], 7)], []⟩ ⟨["src", "a.txt"], 5⟩
     (by decide)).1,
   (copy_dest_exists_policy ⟨false, false⟩ ["src"] ["dst"]
     ⟨[(["src", "a.txt"], 5), (["dst", "a.txt"], 7)], []⟩ ⟨["src", "a.txt"], 5⟩
     (by decide)).2.1,
   (copy_dest_exists_policy ⟨false, false⟩ ["src"] ["dst"]
     ⟨[(["src", "a.txt"], 5), (["dst", "a.txt"], 7)], []⟩ ⟨["src", "a.txt"], 5⟩
     (by decide)).2.2⟩

/-- Claim C6 (counterexample): a work item whose source has vanished but
whose destination exists, with neither `skip` nor `overwrite` set, is
fatal (`CannotOverwrite`), not a recoverable skip — refuting "the outcome
is recoverable, never fatal" as stated. -/
theorem vanished_source_can_be_fatal :
    processFile ⟨false, false⟩ ["src"] ["dst"]
        ⟨[(["dst", "b.txt"], 7)], []⟩ ⟨["src", "b.txt"], 9⟩ =
      Except.error (CopyError.CannotOverwrite ["dst", "b.txt"]) ∧
    (Except.error (CopyError.CannotOverwrite ["dst", "b.txt"]) :
        Except CopyError (Fs × Accumulator)) ≠
      Except.ok ((⟨[(["dst", "b.txt"], 7)], []⟩ : Fs), Accumulator.skips 1 9) := by
  constructor
  · rfl
  · intro h
    exact Except.noConfusion h

/-- Claim C6 (amended): a `File` work item whose source path no longer
exists at copy time is skipped — counted in the skipped counters using
its scan-time metadata, with the filesystem untouched — provided the
destination does not also exist with neither `skip` nor `overwrite` set
(in that one case the fatal `CannotOverwrite` check fires first). -/
theorem vanished_source_skipped (flags : CopyFlags) (cb db : List String)
    (fs : Fs) (item : FileItem)
    (hsrc : fs.pathExists item.path = false)
    (hok : fs.pathExists (destPathOf cb db item.path) = false ∨
           flags.skip = true ∨ flags.overwrite = true) :
    processFile flags cb db fs item = Except.ok (fs, Accumulator.skips 1 item.size) := by
  rcases hok with h | h | h
  · simp [processFile, hsrc, h, copyOrSkip]
  · by_cases hd : fs.pathExists (destPathOf cb db item.path) = true
    · simp [processFile, hsrc, hd, h, copyOrSkip]
    · simp only [Bool.not_eq_true] at hd
      simp [processFile, hsrc, hd, copyOrSkip]
  · by_cases hd : fs.pathExists (destPathOf cb db item.path) = true
    · simp [processFile, hsrc, hd, h, copyOrSkip]
    · simp only [Bool.not_eq_true] at hd
      simp [processFile, hsrc, hd, copyOrSkip]

/-- Witness for `vanished_source_skipped`: empty filesystem, no flags. -/
theorem vanished_source_skipped_witness :
    (Fs.pathExists ⟨[], []⟩ ["src", "c.txt"] = false) ∧
    (Fs.pathExists ⟨[], []⟩ (destPathOf ["src"] ["dst"] ["src", "c.txt"]) = false ∨
       (CopyFlags.mk false false).skip = true ∨
       (CopyFlags.mk false false).overwrite = true) ∧
    processFile ⟨false, false⟩ ["src"] ["dst"] ⟨[], []⟩ ⟨["src", "c.txt"], 3⟩ =
      Except.ok ((⟨[], []⟩ : Fs), Accumulator.skips 1 3) :=
  ⟨by decide, Or.inl (by decide),
   vanished_source_skipped ⟨false, false⟩ ["src"] ["dst"] ⟨[], []⟩ ⟨["src", "c.txt"], 3⟩
     (by decide) (Or.inl (by decide))⟩

theorem length_updateAt {α : Type _} (l : List α) (i : Nat) (g : α → α) :
    (updateAt l i g).length = l.length := by
  induction l generalizing i with
  | nil => rfl
  | cons x xs ih =>
      cases i with
      | zero => rfl
      | succ n => simp [updateAt, ih]

theorem sumBy_cons {α : Type _} (f : α → Nat) (x : α) (l : List α) :
    sumBy f (x :: l) = f x + sumBy f l := rfl

theorem sumBy_append {α : Type _} (f : α → Nat) (l m : List α) :
    sumBy f (l ++ m) = sumBy f l + sumBy f m := by
  induction l with
  | nil => simp [sumBy]
  | cons x xs ih => simp [sumBy, ih]; omega

theorem sumBy_updateAt {α : Type _} (f : α → Nat) (l : List α) (i : Nat) (g : α → α)
    (x : α) (h : l[i]? = some x) :
    sumBy f (updateAt l i g) + f x = sumBy f l + f (g x) := by
  induction l generalizing i with
  | nil => simp at h
  | cons y ys ih =>
      cases i with
      | zero =>
          simp only [List.getElem?_cons_zero, Option.some.injEq] at h
          subst h
          simp only [updateAt, sumBy]
          omega
      | succ n =>
          simp only [List.getElem?_cons_succ] at h
          have e := ih n h
          simp only [updateAt, sumBy]
          omega

theorem mem_updateAt {α : Type _} {l : List α} {i : Nat} {g : α → α} {y : α}
    (h : y ∈ updateAt l i g) : y ∈ l ∨ ∃ x, l[i]? = some x ∧ y = g x := by
  induction l generalizing i with
  | nil => simp [updateAt] at h
  | cons z zs ih =>
      cases i with
      | zero =>
          rcases List.mem_cons.mp h with h' | h'
          · exact Or.inr ⟨z, by simp, h'⟩
          · exact Or.inl (List.mem_cons_of_mem _ h')
      | succ n =>
          rcases List.mem_cons.mp h with h' | h'
          · exact Or.inl (h' ▸ List.mem_cons_self _ _)
          · rcases ih h' with h'' | ⟨x, hx, hy⟩
            · exact Or.inl (List.mem_cons_of_mem _ h'')
            · exact Or.inr ⟨x, by simpa using hx, hy⟩

theorem mem_of_getElem? {α : Type _} {l : List α} {i : Nat} {x : α}
    (h : l[i]? = some x) : x ∈ l := by
  induction l generalizing i with
  | nil => simp at h
  | cons y ys ih =>
      cases i with
      | zero =>
          simp only [List.getElem?_cons_zero, Option.some.injEq] at h
          exact h ▸ List.mem_cons_self _ _
      | succ n =>
          simp only [List.getElem?_cons_succ] at h
          exact List.mem_cons_of_mem _ (ih h)

theorem popFirst_eq_some {α : Type _} (l : List (List α)) (i : Nat) (x : α)
    (xs : List α) (h : popFirst l = some (i, x, xs)) : l[i]? = some (x :: xs) := by
  induction l generalizing i with
  | nil => simp [popFirst] at h
  | cons hd rest ih =>
      cases hd with
      | nil =>
          simp only [popFirst, Option.map_eq_some'] at h
          obtain ⟨⟨j, y, ys⟩, hr, he⟩ := h
          simp only [Prod.mk.injEq] at he
          obtain ⟨hi, hx, hxs⟩ := he
          subst hi hx hxs
          simpa using ih j hr
      | cons a as =>
          simp only [popFirst, Option.some.injEq, Prod.mk.injEq] at h
          obtain ⟨hi, hx, hxs⟩ := h
          subst hi hx hxs
          simp

theorem sumBy_replicate {α : Type _} (f : α → Nat) (n : Nat) (x : α) :
    sumBy f (List.replicate n x) = n * f x := by
  induction n with
  | zero => simp [List.replicate, sumBy]
  | succ k ih =>
      simp only [List.replicate_succ, sumBy, ih]
      ring

theorem sumBy_eq_zero {α : Type _} {f : α → Nat} {l : List α} (h : sumBy f l = 0) :
    ∀ x ∈ l, f x = 0 := by
  induction l with
  | nil => simp
  | cons y ys ih =>
      simp only [sumBy, Nat.add_eq_zero] at h
      intro x hx
      rcases List.mem_cons.mp hx with h' | h'
      · exact h' ▸ h.1
      · exact ih h.2 x h'

theorem sumBy_eq_zero_of_all {α : Type _} {f : α → Nat} {l : List α}
    (h : ∀ x ∈ l, f x = 0) : sumBy f l = 0 := by
  induction l with
  | nil => rfl
  | cons y ys ih =>
      simp only [sumBy]
      rw [h y (List.mem_cons_self _ _), ih (fun x hx => h x (List.mem_cons_of_mem _ hx))]

theorem le_sumBy_of_mem {α : Type _} {f : α → Nat} {l : List α} {x : α} (h : x ∈ l) :
    f x ≤ sumBy f l := by
  induction l with
  | nil => simp at h
  | cons y ys ih =>
      rcases List.mem_cons.mp h with h' | h'
      · subst h'
        simp [sumBy]
      · have := ih h'
        simp only [sumBy]
        omega

theorem getLast?_cons_of_ne_nil {α : Type _} (x : α) (l : List α) (h : l ≠ []) :
    (x :: l).getLast? = l.getLast? := by
  cases l with
  | nil => exact absurd rfl h
  | cons y ys => exact List.getLast?_cons_cons

theorem sumBy_msgFiles_childMsgs (base : List String) (es : Forest) :
    sumBy msgFiles (childMsgs base es) = filesInForest es := by
  induction es with
  | empty => rfl
  | fileEntry n sz rest ih => simp [childMsgs, sumBy, msgFiles, filesInForest, ih]
  | dirEntry n children rest ihc ih => simp [childMsgs, sumBy, msgFiles, filesInForest, ih]

theorem sumBy_msgDirs_childMsgs (base : List String) (es : Forest) :
    sumBy msgDirs (childMsgs base es) = dirsInForest es := by
  induction es with
  | empty => rfl
  | fileEntry n sz rest ih => simp [childMsgs, sumBy, msgDirs, dirsInForest, ih]
  | dirEntry n children rest ihc ih =>
      simp [childMsgs, sumBy, msgDirs, dirsInForest, ih]

theorem sumBy_msgBytes_childMsgs (base : List String) (es : Forest) :
    sumBy msgBytes (childMsgs base es) = bytesInForest es := by
  induction es with
  | empty => rfl
  | fileEntry n sz rest ih => simp [childMsgs, sumBy, msgBytes, bytesInForest, ih]
  | dirEntry n children rest ihc ih => simp [childMsgs, sumBy, msgBytes, bytesInForest, ih]

theorem sumBy_msgDone_childMsgs (base : List String) (es : Forest) :
    sumBy msgDone (childMsgs base es) = 0 := by
  induction es with
  | empty => rfl
  | fileEntry n sz rest ih => simp [childMsgs, sumBy, msgDone, ih]
  | dirEntry n children rest ihc ih => simp [childMsgs, sumBy, msgDone, ih]

theorem sumBy_msgFiles_burst (t : ScanTask) :
    sumBy msgFiles (burst t) = taskFiles t := by
  simp [burst, sumBy_append, sumBy_msgFiles_childMsgs, sumBy, msgFiles, taskFiles]

theorem sumBy_msgDirs_burst (t : ScanTask) :
    sumBy msgDirs (burst t) = taskDirs t := by
  simp [burst, sumBy_append, sumBy_msgDirs_childMsgs, sumBy, msgDirs, taskDirs]

theorem sumBy_msgBytes_burst (t : ScanTask) :
    sumBy msgBytes (burst t) = taskBytes t := by
  simp [burst, sumBy_append, sumBy_msgBytes_childMsgs, sumBy, msgBytes, taskBytes]

theorem sumBy_msgDone_burst (t : ScanTask) :
    sumBy msgDone (burst t) = 1 := by
  simp [burst, sumBy_append, sumBy_msgDone_childMsgs, sumBy, msgDone]

theorem getLast?_burst_append (o : List SearchResult) (t : ScanTask) :
    (o ++ burst t).getLast? = some SearchResult.Done := by
  rw [burst, ← List.append_assoc]
  exact List.getLast?_concat _

theorem Accumulator.found_add_found (a b c d : Nat) :
    Accumulator.found a b + Accumulator.found c d = Accumulator.found (a + c) (b + d) := by
  simp [Accumulator.found, Accumulator.add_def, Accumulator.add]

/-- Each move of the deterministic scheduler is a `ScanStep` (or the
state is already stuck). -/
theorem scanNext_eq_or_step (s : ScanState) : scanNext s = s ∨ ScanStep s (scanNext s) := by
  unfold scanNext
  split
  · exact Or.inl rfl
  next hcr =>
    have hc : s.crashed = false := by
      cases h : s.crashed
      · rfl
      · exact absurd h hcr
    split
    next hp =>
      split
      next i m rest ho =>
        exact Or.inr (ScanStep.deliver s i m rest hc hp (popFirst_eq_some _ _ _ _ ho))
      next ho =>
        split
        next j t tr hi =>
          exact Or.inr (ScanStep.worker s j t tr hc (popFirst_eq_some _ _ _ _ hi))
        next => exact Or.inl rfl
    next hp =>
      split
      next j t tr hi =>
        exact Or.inr (ScanStep.worker s j t tr hc (popFirst_eq_some _ _ _ _ hi))
      next => exact Or.inl rfl

/-- Every state of the deterministic run is reachable. -/
theorem scanReach_scanRun (n : Nat) (s : ScanState) : ScanReach s (scanRun n s) := by
  induction n generalizing s with
  | zero => exact Relation.ReflTransGen.refl
  | succ k ih =>
      show ScanReach s (scanRun k (scanNext s))
      rcases scanNext_eq_or_step s with h | h
      · rw [h]
        exact ih s
      · exact Relation.ReflTransGen.trans (Relation.ReflTransGen.single h) (ih (scanNext s))

/-- Claim C1 (failing input, threads = 1 and a source tree with one
subdirectory): the run seeds worker 0 with the root, the worker reports
the subdirectory, and the coordinator — whose `sender_idx` starts at 1 —
dispatches it through `path_senders[1]`, which does not exist for a
single-thread pool: the coordinator panics (index out of bounds).  In the
model the execution reaches a crashed state whose `pending` counter is 2,
never 0, and the crashed state is a fixed point of the scheduler: the
scan never returns, diverging from the claimed termination for every
thread count N ≥ 1. -/
theorem scan_panics_single_thread :
    ScanReach (initScan (Forest.dirEntry "d" Forest.empty Forest.empty) 1)
      (scanRun 2 (initScan (Forest.dirEntry "d" Forest.empty Forest.empty) 1)) ∧
    (scanRun 2 (initScan (Forest.dirEntry "d" Forest.empty Forest.empty) 1)).crashed = true ∧
    (scanRun 2 (initScan (Forest.dirEntry "d" Forest.empty Forest.empty) 1)).pending = 2 ∧
    scanNext (scanRun 2 (initScan (Forest.dirEntry "d" Forest.empty Forest.empty) 1)) =
      scanRun 2 (initScan (Forest.dirEntry "d" Forest.empty Forest.empty) 1) := by
  refine ⟨scanReach_scanRun 2 _, rfl, rfl, rfl⟩

theorem lt_length_of_getElem? {α : Type _} {l : List α} {i : Nat} {x : α}
    (h : l[i]? = some x) : i < l.length := by
  rcases List.getElem?_eq_some.mp h with ⟨h', _⟩
  exact h'

/-- The `sender_idx` advance of `search_dir` (`main.rs`, lines 133-136):
incrementing with wrap-around keeps tracking the count of dispatched
directories modulo the worker count. -/
theorem roundRobinStep (c N x : Nat) (hN : 2 ≤ N) (hx : x = (1 + c) % N) :
    (if x + 1 = N then 0 else x + 1) = (1 + (c + 1)) % N ∧
    (if x + 1 = N then 0 else x + 1) < N := by
  have hxlt : x < N := by
    subst hx
    exact Nat.mod_lt _ (by omega)
  have key : (1 + (c + 1)) % N = (x + 1) % N := by
    subst hx
    conv_lhs => rw [show 1 + (c + 1) = (1 + c) + 1 by ring]
    rw [Nat.add_mod (1 + c) 1 N, Nat.mod_eq_of_lt (show 1 < N by omega)]
  by_cases he : x + 1 = N
  · rw [if_pos he, key, he, Nat.mod_self]
    exact ⟨rfl, by omega⟩
  · rw [if_neg he, key, Nat.mod_eq_of_lt (by omega)]
    exact ⟨rfl, by omega⟩

/-- The scan invariant is preserved by every step. -/
theorem scanInv_preserved {N F D B : Nat} {s s' : ScanState}
    (hstep : ScanStep s s') (hinv : ScanInv N F D B s) : ScanInv N F D B s' := by
  obtain ⟨hlin, hlout, hacc, hqd, hcr, hncr, hrest⟩ := hinv
  cases hstep with
  | worker i t rest hc hib =>
      obtain ⟨hF, hD, hB, hP, hShape, hSi⟩ := hrest hc
      have hi : i < s.outboxes.length := by
        have h1 : i < s.inboxes.length := lt_length_of_getElem? hib
        omega
      obtain ⟨o, ho⟩ : ∃ o, s.outboxes[i]? = some o := by
        rcases h : s.outboxes[i]? with _ | o
        · rw [List.getElem?_eq_none_iff] at h
          omega
        · exact ⟨o, rfl⟩
      have eF1 := sumBy_updateAt (fun ib => sumBy taskFiles ib) s.inboxes i
        (fun _ => rest) _ hib
      have eF2 := sumBy_updateAt (fun ob => sumBy msgFiles ob) s.outboxes i
        (fun o => o ++ burst t) _ ho
      have eD1 := sumBy_updateAt (fun ib => sumBy taskDirs ib) s.inboxes i
        (fun _ => rest) _ hib
      have eD2 := sumBy_updateAt (fun ob => sumBy msgDirs ob) s.outboxes i
        (fun o => o ++ burst t) _ ho
      have eB1 := sumBy_updateAt (fun ib => sumBy taskBytes ib) s.inboxes i
        (fun _ => rest) _ hib
      have eB2 := sumBy_updateAt (fun ob => sumBy msgBytes ob) s.outboxes i
        (fun o => o ++ burst t) _ ho
      have eL1 := sumBy_updateAt List.length s.inboxes i (fun _ => rest) _ hib
      have eP2 := sumBy_updateAt (fun ob => sumBy msgDone ob) s.outboxes i
        (fun o => o ++ burst t) _ ho
      simp only [sumBy_cons, sumBy_append, sumBy_msgFiles_burst, sumBy_msgDirs_burst,
        sumBy_msgBytes_burst, sumBy_msgDone_burst, List.length_cons]
        at eF1 eF2 eD1 eD2 eB1 eB2 eL1 eP2
      refine ⟨?_, ?_, ?_, ?_, ?_, ?_, ?_⟩
      · simp [workerStepState, length_updateAt, hlin]
      · simp [workerStepState, length_updateAt, hlout]
      · simpa [workerStepState] using hacc
      · simpa [workerStepState] using hqd
      · simp [workerStepState, hc]
      · intro _
        simp [workerStepState, hc]
      · intro _
        refine ⟨?_, ?_, ?_, ?_, ?_, ?_⟩
        · simp only [workerStepState]
          omega
        · simp only [workerStepState]
          omega
        · simp only [workerStepState]
          omega
        · simp only [workerStepState]
          omega
        · simp only [workerStepState]
          intro o' ho' hne
          rcases mem_updateAt ho' with h | ⟨x, hx, rfl⟩
          · exact hShape o' h hne
          · exact getLast?_burst_append x t
        · intro hN2
          simpa [workerStepState] using hSi hN2
  | deliver i m rest hc hp hob =>
      obtain ⟨hF, hD, hB, hP, hShape, hSi⟩ := hrest hc
      have eOF := sumBy_updateAt (fun ob => sumBy msgFiles ob) s.outboxes i
        (fun _ => rest) _ hob
      have eOD := sumBy_updateAt (fun ob => sumBy msgDirs ob) s.outboxes i
        (fun _ => rest) _ hob
      have eOB := sumBy_updateAt (fun ob => sumBy msgBytes ob) s.outboxes i
        (fun _ => rest) _ hob
      have eOP := sumBy_updateAt (fun ob => sumBy msgDone ob) s.outboxes i
        (fun _ => rest) _ hob
      simp only [sumBy_cons] at eOF eOD eOB eOP
      have hShape' : ∀ o' ∈ updateAt s.outboxes i (fun _ => rest), o' ≠ [] →
          o'.getLast? = some SearchResult.Done := by
        intro o' ho' hne
        rcases mem_updateAt ho' with h | ⟨x, hx, rfl⟩
        · exact hShape o' h hne
        · have hmem := mem_of_getElem? hob
          have h1 := hShape _ hmem (by simp)
          rw [getLast?_cons_of_ne_nil m o' hne] at h1
          exact h1
      have hlout' : (updateAt s.outboxes i (fun _ => rest)).length = N := by
        rw [length_updateAt, hlout]
      cases m with
      | File p sz =>
          simp only [deliverState, handleMsg, msgFiles, msgDirs, msgBytes, msgDone]
            at eOF eOD eOB eOP ⊢
          refine ⟨hlin, hlout', ?_, ?_, by simp [hc], fun _ => hc, ?_⟩
          · simp [hacc, Accumulator.found_add_found, sumBy_append, sumBy, qFiles, qBytes]
          · simp [sumBy_append, sumBy, msgDone, hqd]
          · intro _
            refine ⟨?_, ?_, ?_, ?_, hShape', ?_⟩
            · simp only [sumBy_append, sumBy, qFiles]
              omega
            · simp only [sumBy_append, sumBy, qDirs]
              omega
            · simp only [sumBy_append, sumBy, qBytes]
              omega
            · simp only []
              omega
            · intro hN2
              have := hSi hN2
              simpa [sumBy_append, sumBy, qDirs] using this
      | Done =>
          simp only [deliverState, handleMsg, msgFiles, msgDirs, msgBytes, msgDone]
            at eOF eOD eOB eOP ⊢
          refine ⟨hlin, hlout', hacc, hqd, by simp [hc], fun _ => hc, ?_⟩
          intro _
          refine ⟨by simp only []; omega, by simp only []; omega, by simp only []; omega,
            by simp only []; omega, hShape', hSi⟩
      | Directory p es =>
          simp only [deliverState, handleMsg, msgFiles, msgDirs, msgBytes, msgDone]
            at eOF eOD eOB eOP ⊢
          by_cases hlt : s.senderIdx < s.inboxes.length
          · obtain ⟨x, hx⟩ : ∃ x, s.inboxes[s.senderIdx]? = some x := by
              rcases h : s.inboxes[s.senderIdx]? with _ | x
              · rw [List.getElem?_eq_none_iff] at h
                omega
              · exact ⟨x, rfl⟩
            have eIF := sumBy_updateAt (fun ib => sumBy taskFiles ib) s.inboxes
              s.senderIdx (fun q => q ++ [ScanTask.mk p es]) _ hx
            have eID := sumBy_updateAt (fun ib => sumBy taskDirs ib) s.inboxes
              s.senderIdx (fun q => q ++ [ScanTask.mk p es]) _ hx
            have eIB := sumBy_updateAt (fun ib => sumBy taskBytes ib) s.inboxes
              s.senderIdx (fun q => q ++ [ScanTask.mk p es]) _ hx
            have eIL := sumBy_updateAt List.length s.inboxes s.senderIdx
              (fun q => q ++ [ScanTask.mk p es]) _ hx
            simp only [sumBy_append, sumBy, taskFiles, taskDirs, taskBytes,
              List.length_append, List.length_cons, List.length_nil]
              at eIF eID eIB eIL
            simp only [if_pos hlt]
            refine ⟨?_, hlout', ?_, ?_, by simp [hc], fun _ => hc, ?_⟩
            · simp [length_updateAt, hlin]
            · simp [hacc, sumBy_append, sumBy, qFiles, qBytes]
            · simp [sumBy_append, sumBy, msgDone, hqd]
            · intro _
              refine ⟨?_, ?_, ?_, ?_, hShape', ?_⟩
              · simp only [sumBy_append, sumBy, qFiles]
                omega
              · simp only [sumBy_append, sumBy, qDirs]
                omega
              · simp only [sumBy_append, sumBy, qBytes]
                omega
              · simp only []
                omega
              · intro hN2
                obtain ⟨e1, e2⟩ := hSi hN2
                have hr := roundRobinStep (sumBy qDirs s.queue) N s.senderIdx hN2 e1
                rw [hlin]
                simpa [sumBy_append, sumBy, qDirs, Nat.add_comm] using hr
          · simp only [if_neg hlt]
            refine ⟨hlin, hlout', hacc, hqd, by intro _; simp only []; omega, ?_, ?_⟩
            · intro hN2
              obtain ⟨e1, e2⟩ := hSi hN2
              rw [hlin] at hlt
              omega
            · intro hfalse
              exact Bool.noConfusion hfalse

/-- The scan invariant holds at the initial state. -/
theorem scanInv_init (root : Forest) (N : Nat) (hN : 1 ≤ N) :
    ScanInv N (filesInForest root) (dirsInForest root) (bytesInForest root)
      (initScan root N) := by
  obtain ⟨k, rfl⟩ : ∃ k, N = k + 1 := ⟨N - 1, by omega⟩
  have hbox : (initScan root (k + 1)).inboxes =
      [ScanTask.mk [] root] :: List.replicate k [] := by
    simp [initScan, List.replicate_succ, updateAt]
  refine ⟨?_, ?_, rfl, rfl, by simp [initScan], fun _ => rfl, ?_⟩
  · rw [hbox]
    simp [initScan]
  · simp [initScan]
  · intro _
    refine ⟨?_, ?_, ?_, ?_, ?_, ?_⟩
    · rw [hbox]
      simp [initScan, sumBy, sumBy_replicate, taskFiles]
    · rw [hbox]
      simp [initScan, sumBy, sumBy_replicate, taskDirs]
    · rw [hbox]
      simp [initScan, sumBy, sumBy_replicate, taskBytes]
    · rw [hbox]
      simp [initScan, sumBy, sumBy_replicate]
    · intro o ho
      have : o = [] := by
        simp only [initScan] at ho
        exact List.eq_of_mem_replicate ho
      simp [this]
    · intro hN2
      constructor
      · show 1 = (1 + sumBy qDirs []) % (k + 1)
        rw [show sumBy qDirs ([] : List SearchResult) = 0 from rfl]
        rw [Nat.mod_eq_of_lt (by omega)]
      · show 1 < k + 1
        omega

/-- The scan invariant holds at every reachable state. -/
theorem scanInv_of_reach (root : Forest) (N : Nat) (s : ScanState) (hN : 1 ≤ N)
    (hr : ScanReach (initScan root N) s) :
    ScanInv N (filesInForest root) (dirsInForest root) (bytesInForest root) s := by
  induction hr with
  | refl => exact scanInv_init root N hN
  | tail _ h2 ih => exact scanInv_preserved h2 ih

/-- Each queue element is exactly one of `File`, `Directory`, `Done`. -/
theorem length_eq_sum_q (q : List SearchResult) :
    q.length = sumBy qFiles q + sumBy qDirs q + sumBy msgDone q := by
  induction q with
  | nil => rfl
  | cons m rest ih =>
      cases m with
      | File p sz =>
          simp only [List.length_cons, sumBy, qFiles, qDirs, msgDone, ih]
          omega
      | Directory p es =>
          simp only [List.length_cons, sumBy, qFiles, qDirs, msgDone, ih]
          omega
      | Done =>
          simp only [List.length_cons, sumBy, qFiles, qDirs, msgDone, ih]
          omega

/-- Claim C2: for a source tree with `F` files, `D` subdirectories and
total file size `B` (all readable, unchanged during the scan), whenever
the scan coordinator's `pending` counter reaches 0 — the point where
`search_dir` stops reading and returns the queue — the queue holds
exactly `F` `File` items and `D` `Directory` items (and nothing else:
its length is `F + D`), and the found accumulator equals `found(F, B)`:
`file_count_found = F`, `byte_count_found = B`, every other counter 0. -/
theorem scan_queue_complete (root : Forest) (N : Nat) (s : ScanState)
    (hN : 1 ≤ N) (hr : ScanReach (initScan root N) s) (hp : s.pending = 0) :
    sumBy qFiles s.queue = filesInForest root ∧
    sumBy qDirs s.queue = dirsInForest root ∧
    s.queue.length = filesInForest root + dirsInForest root ∧
    s.acc = Accumulator.found (filesInForest root) (bytesInForest root) := by
  have hinv := scanInv_of_reach root N s hN hr
  obtain ⟨hlin, hlout, hacc, hqd, hcr, _, hrest⟩ := hinv
  have hc : s.crashed = false := by
    cases h : s.crashed
    · rfl
    · have := hcr h
      omega
  obtain ⟨hF, hD, hB, hP, hShape, _⟩ := hrest hc
  have hlen0 : sumBy List.length s.inboxes = 0 := by omega
  have hdone0 : sumBy (fun ob => sumBy msgDone ob) s.outboxes = 0 := by omega
  have hibox : ∀ ib ∈ s.inboxes, ib = [] := by
    intro ib hib
    exact List.eq_nil_of_length_eq_zero (sumBy_eq_zero hlen0 ib hib)
  have hobox : ∀ ob ∈ s.outboxes, ob = [] := by
    intro ob hob
    by_contra hne
    have h1 := hShape ob hob hne
    have h2 : SearchResult.Done ∈ ob :=
      List.mem_of_mem_getLast? (Option.mem_def.mpr h1)
    have h3 : msgDone SearchResult.Done ≤ sumBy msgDone ob := le_sumBy_of_mem h2
    have h4 := sumBy_eq_zero hdone0 ob hob
    simp only [msgDone] at h3
    omega
  have hIF : sumBy (fun ib => sumBy taskFiles ib) s.inboxes = 0 :=
    sumBy_eq_zero_of_all (fun ib hib => by rw [hibox ib hib]; rfl)
  have hID : sumBy (fun ib => sumBy taskDirs ib) s.inboxes = 0 :=
    sumBy_eq_zero_of_all (fun ib hib => by rw [hibox ib hib]; rfl)
  have hIB : sumBy (fun ib => sumBy taskBytes ib) s.inboxes = 0 :=
    sumBy_eq_zero_of_all (fun ib hib => by rw [hibox ib hib]; rfl)
  have hOF : sumBy (fun ob => sumBy msgFiles ob) s.outboxes = 0 :=
    sumBy_eq_zero_of_all (fun ob hob => by rw [hobox ob hob]; rfl)
  have hOD : sumBy (fun ob => sumBy msgDirs ob) s.outboxes = 0 :=
    sumBy_eq_zero_of_all (fun ob hob => by rw [hobox ob hob]; rfl)
  have hOB : sumBy (fun ob => sumBy msgBytes ob) s.outboxes = 0 :=
    sumBy_eq_zero_of_all (fun ob hob => by rw [hobox ob hob]; rfl)
  have e1 : sumBy qFiles s.queue = filesInForest root := by omega
  have e2 : sumBy qDirs s.queue = dirsInForest root := by omega
  have e3 : sumBy qBytes s.queue = bytesInForest root := by omega
  refine ⟨e1, e2, ?_, ?_⟩
  · have := length_eq_sum_q s.queue
    omega
  · rw [hacc, e1, e3]

/-- Witness for `scan_queue_complete`: two threads scanning a root that
lists a single 5-byte file; after three deterministic scheduler steps the
pending counter is 0. -/
theorem scan_queue_complete_witness :
    1 ≤ 2 ∧
    ScanReach (initScan (Forest.fileEntry "a" 5 Forest.empty) 2)
      (scanRun 3 (initScan (Forest.fileEntry "a" 5 Forest.empty) 2)) ∧
    (scanRun 3 (initScan (Forest.fileEntry "a" 5 Forest.empty) 2)).pending = 0 ∧
    (sumBy qFiles (scanRun 3 (initScan (Forest.fileEntry "a" 5 Forest.empty) 2)).queue =
       filesInForest (Forest.fileEntry "a" 5 Forest.empty) ∧
     sumBy qDirs (scanRun 3 (initScan (Forest.fileEntry "a" 5 Forest.empty) 2)).queue =
       dirsInForest (Forest.fileEntry "a" 5 Forest.empty) ∧
     (scanRun 3 (initScan (Forest.fileEntry "a" 5 Forest.empty) 2)).queue.length =
       filesInForest (Forest.fileEntry "a" 5 Forest.empty) +
         dirsInForest (Forest.fileEntry "a" 5 Forest.empty) ∧
     (scanRun 3 (initScan (Forest.fileEntry "a" 5 Forest.empty) 2)).acc =
       Accumulator.found (filesInForest (Forest.fileEntry "a" 5 Forest.empty))
         (bytesInForest (Forest.fileEntry "a" 5 Forest.empty))) :=
  ⟨by decide, scanReach_scanRun 3 _, rfl,
   scan_queue_complete (Forest.fileEntry "a" 5 Forest.empty) 2 _ (by decide)
     (scanReach_scanRun 3 _) rfl⟩

/-- Claim C5 (counterexample): the coordinator's handling of a concrete
`Directory` message leaves the found statistics exactly as they were —
in particular `file_count_found` is not incremented the way a `File`
entry's would be — refuting "directories are counted in the found
counters just as files are". -/
theorem scan_directory_message_no_found_merge :
    (handleMsg (initScan Forest.empty 2)
        (SearchResult.Directory ["d"] Forest.empty)).acc =
      (initScan Forest.empty 2).acc ∧
    (handleMsg (initScan Forest.empty 2)
        (SearchResult.Directory ["d"] Forest.empty)).acc.file_count_found ≠
      (initScan Forest.empty 2).acc.file_count_found + 1 := by
  constructor
  · rfl
  · decide

/-- Claim C5 (amended): for every `Directory(entry)` message the
coordinator receives (with the dispatch index in bounds), it appends the
entry to the queue, increments `pending`, and dispatches the entry's path
to worker `sender_idx` — but it does **not** merge the entry into the
found statistics: the accumulator is unchanged, and only `File` messages
update the found counters. -/
theorem scan_directory_message_effect (s : ScanState) (p : List String)
    (sub : Forest) (h : s.senderIdx < s.inboxes.length) :
    (handleMsg s (SearchResult.Directory p sub)).acc = s.acc ∧
    (handleMsg s (SearchResult.Directory p sub)).pending = s.pending + 1 ∧
    (handleMsg s (SearchResult.Directory p sub)).queue =
      s.queue ++ [SearchResult.Directory p sub] ∧
    (handleMsg s (SearchResult.Directory p sub)).inboxes =
      updateAt s.inboxes s.senderIdx (fun q => q ++ [ScanTask.mk p sub]) := by
  simp [handleMsg, h]

/-- Witness for `scan_directory_message_effect` at a concrete state. -/
theorem scan_directory_message_effect_witness :
    (initScan Forest.empty 3).senderIdx < (initScan Forest.empty 3).inboxes.length ∧
    ((handleMsg (initScan Forest.empty 3)
        (SearchResult.Directory ["e"] Forest.empty)).acc =
       (initScan Forest.empty 3).acc ∧
     (handleMsg (initScan Forest.empty 3)
        (SearchResult.Directory ["e"] Forest.empty)).pending =
       (initScan Forest.empty 3).pending + 1 ∧
     (handleMsg (initScan Forest.empty 3)
        (SearchResult.Directory ["e"] Forest.empty)).queue =
       (initScan Forest.empty 3).queue ++ [SearchResult.Directory ["e"] Forest.empty] ∧
     (handleMsg (initScan Forest.empty 3)
        (SearchResult.Directory ["e"] Forest.empty)).inboxes =
       updateAt (initScan Forest.empty 3).inboxes (initScan Forest.empty 3).senderIdx
         (fun q => q ++ [ScanTask.mk ["e"] Forest.empty])) :=
  ⟨by decide,
   scan_directory_message_effect (initScan Forest.empty 3) ["e"] Forest.empty (by decide)⟩

/-- Claim C9 (counterexample): with a single worker thread (N = 1), the
first `Directory` message is not dispatched to worker 1 mod 1 = 0: the
coordinator indexes `path_senders[1]`, which does not exist, and panics.
The model run ends crashed, with worker 0's inbox left empty and the
entry never queued — there is no dispatch at all. -/
theorem scan_round_robin_fails_single_thread :
    (scanRun 2 (initScan (Forest.dirEntry "sub" Forest.empty Forest.empty) 1)).crashed =
      true ∧
    (scanRun 2 (initScan (Forest.dirEntry "sub" Forest.empty Forest.empty) 1)).inboxes =
      [[]] ∧
    (scanRun 2 (initScan (Forest.dirEntry "sub" Forest.empty Forest.empty) 1)).queue =
      [] :=
  ⟨rfl, rfl, rfl⟩

/-- Claim C9 (amended): for N ≥ 2 worker threads, after the root is
seeded to worker 0, the k-th `Directory` message the coordinator receives
(k = 1, 2, ...) is dispatched to worker k mod N: in every reachable
state, `sender_idx` equals (d + 1) mod N where `d` is the number of
`Directory` items received so far (so the next — the (d+1)-th — goes to
worker (d+1) mod N), the index is in bounds, and handling a `Directory`
message appends the task to exactly that worker's inbox.  (For N = 1 the
dispatch panics instead — see the counterexample.) -/
theorem scan_round_robin (root : Forest) (N : Nat) (s : ScanState)
    (hN : 2 ≤ N) (hr : ScanReach (initScan root N) s) :
    s.senderIdx = (sumBy qDirs s.queue + 1) % N ∧
    s.senderIdx < s.inboxes.length ∧
    ∀ p sub, (handleMsg s (SearchResult.Directory p sub)).inboxes =
      updateAt s.inboxes ((sumBy qDirs s.queue + 1) % N)
        (fun q => q ++ [ScanTask.mk p sub]) := by
  have hinv := scanInv_of_reach root N s (by omega) hr
  obtain ⟨hlin, _, _, _, _, hncr, hrest⟩ := hinv
  obtain ⟨_, _, _, _, _, hSi⟩ := hrest (hncr hN)
  obtain ⟨e1, e2⟩ := hSi hN
  have e1' : s.senderIdx = (sumBy qDirs s.queue + 1) % N := by
    rw [e1, Nat.add_comm]
  have hlt : s.senderIdx < s.inboxes.length := by
    rw [hlin]
    exact e2
  refine ⟨e1', hlt, ?_⟩
  intro p sub
  rw [← e1']
  simp [handleMsg, hlt]

/-- Witness for `scan_round_robin` at the initial state with two
threads: `sender_idx` is 1 = (0 + 1) mod 2. -/
theorem scan_round_robin_witness :
    2 ≤ 2 ∧
    ScanReach (initScan Forest.empty 2) (initScan Forest.empty 2) ∧
    ((initScan Forest.empty 2).senderIdx =
       (sumBy qDirs (initScan Forest.empty 2).queue + 1) % 2 ∧
     (initScan Forest.empty 2).senderIdx < (initScan Forest.empty 2).inboxes.length ∧
     ∀ p sub, (handleMsg (initScan Forest.empty 2)
         (SearchResult.Directory p sub)).inboxes =
       updateAt (initScan Forest.empty 2).inboxes
         ((sumBy qDirs (initScan Forest.empty 2).queue + 1) % 2)
         (fun q => q ++ [ScanTask.mk p sub])) :=
  ⟨by decide, Relation.ReflTransGen.refl,
   scan_round_robin Forest.empty 2 (initScan Forest.empty 2) (by decide)
     Relation.ReflTransGen.refl⟩

theorem countIdle_le_length (ws : List WorkStatus) : countIdle ws ≤ ws.length := by
  induction ws with
  | nil => simp [countIdle, sumBy]
  | cons w rest ih =>
      have h : idleWeight w ≤ 1 := by
        cases w <;> simp [idleWeight]
      simp only [countIdle, sumBy, List.length_cons] at ih ⊢
      omega

theorem all_idle_of_countIdle_eq :
    ∀ ws : List WorkStatus, countIdle ws = ws.length →
      ∀ w ∈ ws, w = WorkStatus.idleDone := by
  intro ws
  induction ws with
  | nil => simp
  | cons w rest ih =>
      intro h
      have h1 : idleWeight w ≤ 1 := by
        cases w <;> simp [idleWeight]
      have h2 := countIdle_le_length rest
      simp only [countIdle, sumBy, List.length_cons] at h h2
      have hw : idleWeight w = 1 := by omega
      have hrest : countIdle rest = rest.length := by
        simp only [countIdle]
        omega
      intro x hx
      rcases List.mem_cons.mp hx with h' | h'
      · subst h'
        cases x with
        | inflight d => simp [idleWeight] at hw
        | busy p => simp [idleWeight] at hw
        | idleDone => rfl
      · exact ih hrest x h'

theorem exists_non_idle :
    ∀ ws : List WorkStatus, countIdle ws < ws.length →
      ∃ (i : Nat) (w : WorkStatus), ws[i]? = some w ∧ w ≠ WorkStatus.idleDone := by
  intro ws
  induction ws with
  | nil => intro h; simp [countIdle, sumBy] at h
  | cons w rest ih =>
      intro h
      cases w with
      | idleDone =>
          simp only [countIdle, sumBy, idleWeight, List.length_cons] at h
          obtain ⟨i, w', hw', hne⟩ := ih (by simp only [countIdle]; omega)
          exact ⟨i + 1, w', by simpa using hw', hne⟩
      | inflight d =>
          refine ⟨0, WorkStatus.inflight d, by simp, ?_⟩
          intro hcon
          exact WorkStatus.noConfusion hcon
      | busy p =>
          refine ⟨0, WorkStatus.busy p, by simp, ?_⟩
          intro hcon
          exact WorkStatus.noConfusion hcon

/-- The copy-phase invariant holds initially: no worker has been counted
idle yet. -/
theorem copyInv_init (q : List SearchResult) (N : Nat) : CopyInv N (initCopy q N) := by
  constructor
  · simp [initCopy]
  · simp [initCopy, countIdle, sumBy_replicate, idleWeight]

/-- The copy-phase invariant is preserved by every step: a worker is
counted idle exactly when it transitions into the absorbing
`idleDone` status. -/
theorem copyInv_preserved {N : Nat} {exec : SearchResult → Accumulator}
    {s s' : CopyState} (h : CopyStep exec s s') (hinv : CopyInv N s) : CopyInv N s' := by
  obtain ⟨hlen, hidle⟩ := hinv
  cases h with
  | deliverItem i d p rest hlt hw hq =>
      have e := sumBy_updateAt idleWeight s.workers i (fun _ => WorkStatus.busy p) _ hw
      simp only [idleWeight] at e
      constructor
      · simp [length_updateAt, hlen]
      · simp only [countIdle] at hidle ⊢
        omega
  | deliverIdle i d hlt hw hq =>
      have e := sumBy_updateAt idleWeight s.workers i (fun _ => WorkStatus.idleDone) _ hw
      simp only [idleWeight] at e
      constructor
      · simp [length_updateAt, hlen]
      · simp only [countIdle] at hidle ⊢
        omega
  | process i p hw =>
      have e := sumBy_updateAt idleWeight s.workers i
        (fun _ => WorkStatus.inflight (exec p)) _ hw
      simp only [idleWeight] at e
      constructor
      · simp [length_updateAt, hlen]
      · simp only [countIdle] at hidle ⊢
        omega

/-- Every copy-phase step strictly decreases the measure. -/
theorem copyMeasure_decreases {exec : SearchResult → Accumulator} {s s' : CopyState}
    (h : CopyStep exec s s') : copyMeasure s' < copyMeasure s := by
  cases h with
  | deliverItem i d p rest hlt hw hq =>
      have e := sumBy_updateAt workerWeight s.workers i (fun _ => WorkStatus.busy p) _ hw
      simp only [workerWeight] at e
      simp only [copyMeasure, hq, List.length_cons]
      omega
  | deliverIdle i d hlt hw hq =>
      have e := sumBy_updateAt workerWeight s.workers i (fun _ => WorkStatus.idleDone) _ hw
      simp only [workerWeight] at e
      simp only [copyMeasure, hq]
      omega
  | process i p hw =>
      have e := sumBy_updateAt workerWeight s.workers i
        (fun _ => WorkStatus.inflight (exec p)) _ hw
      simp only [workerWeight] at e
      simp only [copyMeasure]
      omega

/-- While the idle counter is below the thread count, some step is
enabled: a non-idle worker is either ready (the coordinator can serve or
idle-count it) or busy (it can finish its item). -/
theorem copyStep_progress {N : Nat} (exec : SearchResult → Accumulator)
    {s : CopyState} (hinv : CopyInv N s) (hlt : s.idle < N) :
    ∃ s', CopyStep exec s s' := by
  obtain ⟨hlen, hidle⟩ := hinv
  have h : countIdle s.workers < s.workers.length := by omega
  obtain ⟨i, w, hw, hne⟩ := exists_non_idle s.workers h
  cases w with
  | inflight d =>
      cases hq : s.queue with
      | nil => exact ⟨_, CopyStep.deliverIdle s i d (by omega) hw hq⟩
      | cons p rest => exact ⟨_, CopyStep.deliverItem s i d p rest (by omega) hw hq⟩
  | busy p => exact ⟨_, CopyStep.process s i p hw⟩
  | idleDone => exact absurd rfl hne

/-- Claim C4: for every work-item queue (any size ≥ 0, the empty queue
included) and every thread count N ≥ 1, the copy phase in the absence of
fatal errors (each item's processing yields an accumulator delta
`exec item`) terminates: no execution from the initial state is
infinite, and every reachable stuck state has `idle = N` — every worker
has been counted idle, each exactly once (the idle counter equals the
number of workers in the absorbing idle status, which is all of them) —
whereupon `copy_queue` breaks out of its receive loop, joins the workers
and returns `Ok(())`. -/
theorem copy_phase_terminates (exec : SearchResult → Accumulator)
    (q : List SearchResult) (N : Nat) (_hN : 1 ≤ N) :
    (∀ f : Nat → CopyState, f 0 = initCopy q N →
       ∃ k, ¬ CopyStep exec (f k) (f (k + 1))) ∧
    (∀ s : CopyState, Relation.ReflTransGen (CopyStep exec) (initCopy q N) s →
       (∀ s', ¬ CopyStep exec s s') →
       s.idle = N ∧ countIdle s.workers = N ∧
         ∀ w ∈ s.workers, w = WorkStatus.idleDone) := by
  constructor
  · intro f hf0
    by_contra hall
    simp only [not_exists, not_not] at hall
    have hdec : ∀ k, copyMeasure (f (k + 1)) < copyMeasure (f k) :=
      fun k => copyMeasure_decreases (hall k)
    have hbound : ∀ k, copyMeasure (f k) + k ≤ copyMeasure (f 0) := by
      intro k
      induction k with
      | zero => omega
      | succ j ihj =>
          have := hdec j
          omega
    have := hbound (copyMeasure (f 0) + 1)
    omega
  · intro s hr hterm
    have hinv : CopyInv N s := by
      clear hterm
      induction hr with
      | refl => exact copyInv_init q N
      | tail _ h2 ih => exact copyInv_preserved h2 ih
    obtain ⟨hlen, hidle⟩ := hinv
    have hle := countIdle_le_length s.workers
    by_cases hlt : s.idle < N
    · obtain ⟨s', hs'⟩ := copyStep_progress exec ⟨hlen, hidle⟩ hlt
      exact absurd hs' (hterm s')
    · have h1 : s.idle = N := by omega
      have h2 : countIdle s.workers = N := by omega
      exact ⟨h1, h2, all_idle_of_countIdle_eq s.workers (by omega)⟩

/-- Witness for `copy_phase_terminates`: a single thread and the empty
queue (the degenerate zero-files case). -/
theorem copy_phase_terminates_witness :
    1 ≤ 1 ∧
    ((∀ f : Nat → CopyState, f 0 = initCopy [] 1 →
        ∃ k, ¬ CopyStep (fun _ => Accumulator.found 0 0) (f k) (f (k + 1))) ∧
     (∀ s : CopyState,
        Relation.ReflTransGen (CopyStep (fun _ => Accumulator.found 0 0))
          (initCopy [] 1) s →
        (∀ s', ¬ CopyStep (fun _ => Accumulator.found 0 0) s s') →
        s.idle = 1 ∧ countIdle s.workers = 1 ∧
          ∀ w ∈ s.workers, w = WorkStatus.idleDone)) :=
  ⟨by decide, copy_phase_terminates (fun _ => Accumulator.found 0 0) [] 1 (by decide)⟩

end Ninecopy
